import Mathlib

/-!
Verification of the core of the `jesc-discord-bot` repository: a shallow
embedding of the Japanese text normalizer (`src/tokenizer.py`, built on the
`jaconv` conversions it calls), the tokenizer/lemmatizer methods, the word
index builder (`src/loader.py`), the database query layer (`src/database.py`)
and the tiered search of the bot command (`src/bot.py`), together with proofs
about them.

Python strings are modelled as lists of Unicode code points (`Str`).
-/

namespace JESC

/-- A Python string, as its sequence of Unicode code points. -/
abbrev Str := List Nat

/-! ## jaconv character conversions used by `JapaneseTokenizer.normalize`

`normalize` runs `jaconv.z2h(text, kana=False, ascii=True, digit=True)` and
then `jaconv.h2z(text, kana=True, ascii=False, digit=False)`.  With those
flags, `z2h` folds the full-width ASCII/digit block U+FF01..U+FF5E down by
0xFEE0 and the ideographic space U+3000 to U+0020, and `h2z` first merges
half-width katakana followed by the half-width voicing marks U+FF9E/U+FF9F
into the voiced full-width katakana, then maps the remaining half-width kana
block U+FF61..U+FF9F through its single-character table. -/

/-- `jaconv.z2h(·, kana=False, ascii=True, digit=True)` on one code point:
full-width ASCII, digits and the ideographic space fold to half-width. -/
def z2hChar (c : Nat) : Nat :=
  if 0xFF01 ≤ c ∧ c ≤ 0xFF5E then c - 0xFEE0
  else if c = 0x3000 then 0x20
  else c

/-- jaconv's single-character half-width → full-width katakana table
(keys U+FF61..U+FF9F, complete). -/
def h2zKanaTable : List (Nat × Nat) :=
  [(0xFF61, 0x3002), (0xFF62, 0x300C), (0xFF63, 0x300D), (0xFF64, 0x3001),
   (0xFF65, 0x30FB), (0xFF66, 0x30F2), (0xFF67, 0x30A1), (0xFF68, 0x30A3),
   (0xFF69, 0x30A5), (0xFF6A, 0x30A7), (0xFF6B, 0x30A9), (0xFF6C, 0x30E3),
   (0xFF6D, 0x30E5), (0xFF6E, 0x30E7), (0xFF6F, 0x30C3), (0xFF70, 0x30FC),
   (0xFF71, 0x30A2), (0xFF72, 0x30A4), (0xFF73, 0x30A6), (0xFF74, 0x30A8),
   (0xFF75, 0x30AA), (0xFF76, 0x30AB), (0xFF77, 0x30AD), (0xFF78, 0x30AF),
   (0xFF79, 0x30B1), (0xFF7A, 0x30B3), (0xFF7B, 0x30B5), (0xFF7C, 0x30B7),
   (0xFF7D, 0x30B9), (0xFF7E, 0x30BB), (0xFF7F, 0x30BD), (0xFF80, 0x30BF),
   (0xFF81, 0x30C1), (0xFF82, 0x30C4), (0xFF83, 0x30C6), (0xFF84, 0x30C8),
   (0xFF85, 0x30CA), (0xFF86, 0x30CB), (0xFF87, 0x30CC), (0xFF88, 0x30CD),
   (0xFF89, 0x30CE), (0xFF8A, 0x30CF), (0xFF8B, 0x30D2), (0xFF8C, 0x30D5),
   (0xFF8D, 0x30D8), (0xFF8E, 0x30DB), (0xFF8F, 0x30DE), (0xFF90, 0x30DF),
   (0xFF91, 0x30E0), (0xFF92, 0x30E1), (0xFF93, 0x30E2), (0xFF94, 0x30E4),
   (0xFF95, 0x30E6), (0xFF96, 0x30E8), (0xFF97, 0x30E9), (0xFF98, 0x30EA),
   (0xFF99, 0x30EB), (0xFF9A, 0x30EC), (0xFF9B, 0x30ED), (0xFF9C, 0x30EF),
   (0xFF9D, 0x30F3), (0xFF9E, 0x309B), (0xFF9F, 0x309C)]

/-- jaconv's dakuten merges: half-width base + U+FF9E → voiced full-width. -/
def dakutenTable : List (Nat × Nat) :=
  [(0xFF76, 0x30AC), (0xFF77, 0x30AE), (0xFF78, 0x30B0), (0xFF79, 0x30B2),
   (0xFF7A, 0x30B4), (0xFF7B, 0x30B6), (0xFF7C, 0x30B8), (0xFF7D, 0x30BA),
   (0xFF7E, 0x30BC), (0xFF7F, 0x30BE), (0xFF80, 0x30C0), (0xFF81, 0x30C2),
   (0xFF82, 0x30C5), (0xFF83, 0x30C7), (0xFF84, 0x30C9), (0xFF8A, 0x30D0),
   (0xFF8B, 0x30D3), (0xFF8C, 0x30D6), (0xFF8D, 0x30D9), (0xFF8E, 0x30DC),
   (0xFF73, 0x30F4)]

/-- jaconv's handakuten merges: half-width base + U+FF9F → full-width pa row. -/
def handakutenTable : List (Nat × Nat) :=
  [(0xFF8A, 0x30D1), (0xFF8B, 0x30D4), (0xFF8C, 0x30D7), (0xFF8D, 0x30DA),
   (0xFF8E, 0x30DD)]

/-- Single-character part of `jaconv.h2z(·, kana=True)`. -/
def h2zKanaChar (c : Nat) : Nat :=
  (h2zKanaTable.lookup c).getD c

/-- The voiced full-width katakana produced when `c` is followed by the
half-width voicing mark `d`, if any. -/
def voicedPair (c d : Nat) : Option Nat :=
  if d = 0xFF9E then dakutenTable.lookup c
  else if d = 0xFF9F then handakutenTable.lookup c
  else none

/-- `jaconv.h2z(·, kana=True, ascii=False, digit=False)`: merge dakuten and
handakuten pairs, then map remaining half-width kana one character at a
time.  jaconv performs the pair merges by sequential `str.replace` calls;
since every pattern is a distinct half-width base followed by U+FF9E/U+FF9F
and every replacement is a full-width character that can take part in no
pattern, that is equivalent to this single left-to-right scan. -/
def h2zKana : List Nat → List Nat
  | [] => []
  | [c] => [h2zKanaChar c]
  | c :: d :: rest =>
    match voicedPair c d with
    | some v => v :: h2zKana rest
    | none => h2zKanaChar c :: h2zKana (d :: rest)

/-- `JapaneseTokenizer.normalize` (src/tokenizer.py lines 23-38):
`jaconv.z2h(text, kana=False, ascii=True, digit=True)` followed by
`jaconv.h2z(text, kana=True, ascii=False, digit=False)`. -/
def normalize (text : Str) : Str :=
  h2zKana (text.map z2hChar)

/-! ### Facts about the normalizer -/

/-- A code point is in normal form when the full-width fold leaves it alone
and it is not half-width kana. -/
def goodChar (c : Nat) : Prop :=
  z2hChar c = c ∧ ¬(0xFF61 ≤ c ∧ c ≤ 0xFF9F)

instance (c : Nat) : Decidable (goodChar c) := by
  unfold goodChar; infer_instance

theorem z2hChar_idem (c : Nat) : z2hChar (z2hChar c) = z2hChar c := by
  unfold z2hChar
  split_ifs <;> omega

theorem lookup_mem {l : List (Nat × Nat)} {k v : Nat}
    (h : l.lookup k = some v) : (k, v) ∈ l := by
  induction l with
  | nil => simp [List.lookup] at h
  | cons p t ih =>
    obtain ⟨a, b⟩ := p
    rw [List.lookup] at h
    by_cases hk : k = a
    · subst hk
      simp at h
      subst h
      exact List.mem_cons_self _ _
    · have hbeq : (k == a) = false := by simp [hk]
      rw [hbeq] at h
      simp at h
      exact List.mem_cons_of_mem _ (ih h)

theorem lookup_none {l : List (Nat × Nat)} {k : Nat}
    (h : ∀ p ∈ l, p.1 ≠ k) : l.lookup k = none := by
  induction l with
  | nil => rfl
  | cons p t ih =>
    rw [List.lookup]
    have hne : p.1 ≠ k := h p (List.mem_cons_self p t)
    have hbeq : (k == p.1) = false := by
      simp
      exact fun hh => (hne hh.symm)
    rw [hbeq]
    exact ih fun q hq => h q (List.mem_cons_of_mem _ hq)

theorem h2zKanaTable_keys_halfKana :
    ∀ p ∈ h2zKanaTable, 0xFF61 ≤ p.1 ∧ p.1 ≤ 0xFF9F := by decide

theorem h2zKanaTable_vals_good : ∀ p ∈ h2zKanaTable, goodChar p.2 := by decide

theorem dakutenTable_vals_good : ∀ p ∈ dakutenTable, goodChar p.2 := by decide

theorem handakutenTable_vals_good : ∀ p ∈ handakutenTable, goodChar p.2 := by
  decide

theorem h2zKanaTable_complete :
    ∀ k < 63, (h2zKanaTable.lookup (0xFF61 + k)).isSome = true := by decide

theorem h2zKanaChar_eq_of_good {c : Nat} (h : goodChar c) :
    h2zKanaChar c = c := by
  unfold h2zKanaChar
  rw [lookup_none]
  · rfl
  · intro p hp he
    exact h.2 (he ▸ h2zKanaTable_keys_halfKana p hp)

theorem h2zKanaChar_not_halfKana_of_lookup_none {c : Nat}
    (h : h2zKanaTable.lookup c = none) : ¬(0xFF61 ≤ c ∧ c ≤ 0xFF9F) := by
  intro hc
  have hlt : c - 0xFF61 < 63 := by omega
  have := h2zKanaTable_complete (c - 0xFF61) hlt
  have hc' : 0xFF61 + (c - 0xFF61) = c := by omega
  rw [hc', h] at this
  simp at this

theorem voicedPair_none_of_good {c d : Nat} (hd : goodChar d) :
    voicedPair c d = none := by
  unfold voicedPair
  have h1 : d ≠ 0xFF9E := by
    intro he; exact hd.2 (by omega)
  have h2 : d ≠ 0xFF9F := by
    intro he; exact hd.2 (by omega)
  simp [h1, h2]

theorem voicedPair_val_good {c d v : Nat} (hv : voicedPair c d = some v) :
    goodChar v := by
  unfold voicedPair at hv
  by_cases h1 : d = 0xFF9E
  · rw [if_pos h1] at hv
    exact dakutenTable_vals_good _ (lookup_mem hv)
  · rw [if_neg h1] at hv
    by_cases h2 : d = 0xFF9F
    · rw [if_pos h2] at hv
      exact handakutenTable_vals_good _ (lookup_mem hv)
    · rw [if_neg h2] at hv
      simp at hv

theorem h2zKanaChar_cases (a : Nat) :
    goodChar (h2zKanaChar a) ∨
      (h2zKanaChar a = a ∧ ¬(0xFF61 ≤ a ∧ a ≤ 0xFF9F)) := by
  unfold h2zKanaChar
  cases hl : h2zKanaTable.lookup a with
  | some v =>
    left
    exact h2zKanaTable_vals_good _ (lookup_mem hl)
  | none =>
    right
    exact ⟨rfl, h2zKanaChar_not_halfKana_of_lookup_none hl⟩

/-- Every character of `h2zKana s` is either already in normal form, or is a
character of `s` that is not half-width kana. -/
theorem h2zKana_chars :
    ∀ s : List Nat, ∀ c ∈ h2zKana s,
      goodChar c ∨ (c ∈ s ∧ ¬(0xFF61 ≤ c ∧ c ≤ 0xFF9F)) := by
  intro s
  induction s using h2zKana.induct with
  | case1 => intro c hc; simp [h2zKana] at hc
  | case2 a =>
    intro c hc
    simp only [h2zKana, List.mem_singleton] at hc
    subst hc
    rcases h2zKanaChar_cases a with h | ⟨he, hn⟩
    · left; exact h
    · right
      rw [he]
      exact ⟨List.mem_singleton_self a, hn⟩
  | case3 a d rest v hv ih =>
    intro c hc
    rw [h2zKana, hv] at hc
    rcases List.mem_cons.mp hc with hc | hc
    · subst hc
      left
      exact voicedPair_val_good hv
    · rcases ih c hc with h | ⟨hm, hn⟩
      · left; exact h
      · right
        exact ⟨List.mem_cons_of_mem _ (List.mem_cons_of_mem _ hm), hn⟩
  | case4 a d rest hv ih =>
    intro c hc
    rw [h2zKana, hv] at hc
    rcases List.mem_cons.mp hc with hc | hc
    · subst hc
      rcases h2zKanaChar_cases a with h | ⟨he, hn⟩
      · left; exact h
      · right
        rw [he]
        exact ⟨List.mem_cons_self a _, hn⟩
    · rcases ih c hc with h | ⟨hm, hn⟩
      · left; exact h
      · right
        exact ⟨List.mem_cons_of_mem _ hm, hn⟩

/-- On strings whose characters are all in normal form, the kana pass is the
identity. -/
theorem h2zKana_id :
    ∀ s : List Nat, (∀ c ∈ s, goodChar c) → h2zKana s = s := by
  intro s
  induction s using h2zKana.induct with
  | case1 => intro _; rfl
  | case2 a =>
    intro h
    simp only [h2zKana]
    rw [h2zKanaChar_eq_of_good (h a (List.mem_singleton_self a))]
  | case3 a d rest v hv ih =>
    intro h
    have hd : goodChar d :=
      h d (List.mem_cons_of_mem _ (List.mem_cons_self d rest))
    rw [voicedPair_none_of_good hd] at hv
    simp at hv
  | case4 a d rest hv ih =>
    intro h
    rw [h2zKana, hv]
    rw [h2zKanaChar_eq_of_good (h a (List.mem_cons_self a _))]
    rw [ih fun c hc => h c (List.mem_cons_of_mem _ hc)]

theorem map_z2hChar_id {s : List Nat} (h : ∀ c ∈ s, z2hChar c = c) :
    s.map z2hChar = s := by
  induction s with
  | nil => rfl
  | cons a t ih =>
    simp only [List.map_cons]
    rw [h a (List.mem_cons_self a t),
      ih fun c hc => h c (List.mem_cons_of_mem _ hc)]

/-- Every character of `normalize x` is in normal form. -/
theorem normalize_chars_good (x : Str) : ∀ c ∈ normalize x, goodChar c := by
  intro c hc
  unfold normalize at hc
  rcases h2zKana_chars _ c hc with h | ⟨hm, hn⟩
  · exact h
  · rcases List.mem_map.mp hm with ⟨a, _, ha⟩
    exact ⟨ha ▸ z2hChar_idem a, hn⟩

/-- The normalizer is idempotent. -/
theorem normalize_idem (x : Str) : normalize (normalize x) = normalize x := by
  have hg := normalize_chars_good x
  show h2zKana ((normalize x).map z2hChar) = normalize x
  rw [map_z2hChar_id fun c hc => (hg c hc).1]
  exact h2zKana_id _ hg

/-! ## Tokenizer (src/tokenizer.py)

The morphological segmenter itself is the external `fugashi`/MeCab library:
it is modelled as an abstract function `tag` from text to a list of
morphemes.  One morpheme carries the fields the repository reads from
`word.feature`: `surface`, `lemma` (Python `None` modelled as `none`),
`pos1`, `pos2`, `kana`. -/

/-- One morpheme as produced by the fugashi tagger. -/
structure Morpheme where
  surface : Str
  lemma? : Option Str
  pos1 : Str
  pos2 : Str
  kana : Option Str
deriving DecidableEq

/-- A fugashi tagger: text to morpheme list. -/
abbrev Tagger := Str → List Morpheme

/-- The string `"*"`, fugashi's placeholder for an unknown lemma. -/
def star : Str := [0x2A]

/-- The Python truthiness test `lemma and lemma != '*'` used by
`get_lemmas` and `get_lemmas_with_surface`. -/
def lemmaUsable : Option Str → Bool
  | some l => !l.isEmpty && l ≠ star
  | none => false

/-- `JapaneseTokenizer.tokenize` (src/tokenizer.py lines 40-56): normalize,
then return the surface form of every morpheme, in order.  (The
`except` branch returns `[]` only on a segmenter exception; the abstract
tagger is total, so that branch is not reachable in the model.) -/
def tokenize (tag : Tagger) (text : Str) : List Str :=
  (tag (normalize text)).map Morpheme.surface

/-- `JapaneseTokenizer.get_lemmas` (src/tokenizer.py lines 58-85):
normalize, then collect into a set the lemma of each morpheme when it is
usable, else its surface form.  The Python `set` is modelled as a
duplicate-free list built with `List.insert`. -/
def get_lemmas (tag : Tagger) (text : Str) : List Str :=
  (tag (normalize text)).foldl
    (fun acc m =>
      match m.lemma? with
      | some l => if !l.isEmpty && l ≠ star then acc.insert l
          else acc.insert m.surface
      | none => acc.insert m.surface)
    []

/-- `JapaneseTokenizer.get_lemmas_with_surface` (src/tokenizer.py lines
87-113): normalize, then collect every surface form and additionally every
usable lemma. -/
def get_lemmas_with_surface (tag : Tagger) (text : Str) : List Str :=
  (tag (normalize text)).foldl
    (fun acc m =>
      match m.lemma? with
      | some l => if !l.isEmpty && l ≠ star
          then (acc.insert m.surface).insert l
          else acc.insert m.surface
      | none => acc.insert m.surface)
    []

/-- The record built by `JapaneseTokenizer.analyze_word` (src/tokenizer.py
lines 115-141) from the first morpheme.  Note: the lemma is kept only when
it differs from `'*'` (a `None` lemma stays `None`). -/
structure WordInfo where
  surface : Str
  lemma? : Option Str
  pos : Str
  pos_detail : Str
  reading : Option Str
deriving DecidableEq

/-- `JapaneseTokenizer.analyze_word`: tags the word AS GIVEN (this method,
unlike the three above, performs no normalization) and reports the first
morpheme; the empty dict `{}` is modelled as `none`. -/
def analyze_word (tag : Tagger) (word : Str) : Option WordInfo :=
  match tag word with
  | [] => none
  | m :: _ =>
    some
      { surface := m.surface
        lemma? := match m.lemma? with
          | some l => if l = star then none else some l
          | none => none
        pos := m.pos1
        pos_detail := m.pos2
        reading := m.kana }

/-! ### Membership characterizations of the token sets -/

/-- The word `get_lemmas` contributes for one morpheme. -/
def lemmaOrSurface (m : Morpheme) : Str :=
  match m.lemma? with
  | some l => if !l.isEmpty && l ≠ star then l else m.surface
  | none => m.surface

/-- The words `get_lemmas_with_surface` contributes for one morpheme. -/
def surfaceAndLemma (m : Morpheme) : List Str :=
  m.surface ::
    (match m.lemma? with
     | some l => if !l.isEmpty && l ≠ star then [l] else []
     | none => [])

theorem mem_get_lemmas_aux (ms : List Morpheme) (acc : List Str) (w : Str) :
    w ∈ ms.foldl
        (fun acc m =>
          match m.lemma? with
          | some l => if !l.isEmpty && l ≠ star then acc.insert l
              else acc.insert m.surface
          | none => acc.insert m.surface)
        acc ↔
      w ∈ acc ∨ ∃ m ∈ ms, w = lemmaOrSurface m := by
  induction ms generalizing acc with
  | nil => simp
  | cons m t ih =>
    rw [List.foldl_cons, ih]
    have hstep :
        w ∈ (match m.lemma? with
          | some l => if !l.isEmpty && l ≠ star then acc.insert l
              else acc.insert m.surface
          | none => acc.insert m.surface) ↔
          w ∈ acc ∨ w = lemmaOrSurface m := by
      unfold lemmaOrSurface
      cases m.lemma? with
      | some l =>
        dsimp only
        split_ifs with hc
        · simp only [List.mem_insert_iff]
          tauto
        · simp only [List.mem_insert_iff]
          tauto
      | none =>
        dsimp only
        simp only [List.mem_insert_iff]
        tauto
    rw [hstep]
    simp only [List.mem_cons]
    constructor
    · rintro (⟨h | h⟩ | ⟨m', hm', he⟩)
      · left; exact h
      · right; exact ⟨m, Or.inl rfl, h⟩
      · right; exact ⟨m', Or.inr hm', he⟩
    · rintro (h | ⟨m', hm' | hm', he⟩)
      · left; left; exact h
      · subst hm'; left; right; exact he
      · right; exact ⟨m', hm', he⟩

theorem mem_get_lemmas_iff (tag : Tagger) (text : Str) (w : Str) :
    w ∈ get_lemmas tag text ↔
      ∃ m ∈ tag (normalize text), w = lemmaOrSurface m := by
  unfold get_lemmas
  rw [mem_get_lemmas_aux]
  simp

theorem mem_lws_aux (ms : List Morpheme) (acc : List Str) (w : Str) :
    w ∈ ms.foldl
        (fun acc m =>
          match m.lemma? with
          | some l => if !l.isEmpty && l ≠ star
              then (acc.insert m.surface).insert l
              else acc.insert m.surface
          | none => acc.insert m.surface)
        acc ↔
      w ∈ acc ∨ ∃ m ∈ ms, w ∈ surfaceAndLemma m := by
  induction ms generalizing acc with
  | nil => simp
  | cons m t ih =>
    rw [List.foldl_cons, ih]
    have hstep :
        w ∈ (match m.lemma? with
          | some l => if !l.isEmpty && l ≠ star
              then (acc.insert m.surface).insert l
              else acc.insert m.surface
          | none => acc.insert m.surface) ↔
          w ∈ acc ∨ w ∈ surfaceAndLemma m := by
      unfold surfaceAndLemma
      cases m.lemma? with
      | some l =>
        dsimp only
        split_ifs with hc
        · simp only [List.mem_insert_iff, List.mem_cons, List.mem_singleton,
            List.not_mem_nil]
          tauto
        · simp only [List.mem_insert_iff, List.mem_cons, List.not_mem_nil,
            or_false]
          tauto
      | none =>
        dsimp only
        simp only [List.mem_insert_iff, List.mem_cons, List.not_mem_nil,
          or_false]
        tauto
    rw [hstep]
    simp only [List.mem_cons]
    constructor
    · rintro (⟨h | h⟩ | ⟨m', hm', he⟩)
      · left; exact h
      · right; exact ⟨m, Or.inl rfl, h⟩
      · right; exact ⟨m', Or.inr hm', he⟩
    · rintro (h | ⟨m', hm' | hm', he⟩)
      · left; left; exact h
      · subst hm'; left; right; exact he
      · right; exact ⟨m', hm', he⟩

theorem mem_lws_iff (tag : Tagger) (text : Str) (w : Str) :
    w ∈ get_lemmas_with_surface tag text ↔
      ∃ m ∈ tag (normalize text), w ∈ surfaceAndLemma m := by
  unfold get_lemmas_with_surface
  rw [mem_lws_aux]
  simp

/-- `List.insert` with a lawful `BEq` preserves freedom from duplicates. -/
theorem nodup_insert {α} [BEq α] [LawfulBEq α] {l : List α} {a : α}
    (h : l.Nodup) : (l.insert a).Nodup := by
  by_cases he : a ∈ l
  · rwa [List.insert_of_mem he]
  · rw [List.insert_of_not_mem he]
    exact List.nodup_cons.mpr ⟨he, h⟩

/-- `get_lemmas_with_surface` produces a duplicate-free list (it models a
Python `set`). -/
theorem lws_nodup (tag : Tagger) (text : Str) :
    (get_lemmas_with_surface tag text).Nodup := by
  unfold get_lemmas_with_surface
  generalize tag (normalize text) = ms
  have key : ∀ (ms : List Morpheme) (acc : List Str), acc.Nodup →
      (ms.foldl
        (fun acc m =>
          match m.lemma? with
          | some l => if !l.isEmpty && l ≠ star
              then (acc.insert m.surface).insert l
              else acc.insert m.surface
          | none => acc.insert m.surface)
        acc).Nodup := by
    intro ms
    induction ms with
    | nil => intro acc h; exact h
    | cons m t ih =>
      intro acc h
      rw [List.foldl_cons]
      apply ih
      cases m.lemma? with
      | some l =>
        dsimp only
        split_ifs with hc
        · exact nodup_insert (nodup_insert h)
        · exact nodup_insert h
      | none => exact nodup_insert h
  exact key ms [] List.nodup_nil

/-! ## Index builder (src/loader.py) and rebuild script
(src/scripts/rebuild_word_index.py) -/

/-- `build_word_index` (src/loader.py lines 82-106): enumerate the sentence
pairs starting at `start_id`; for each, extract
`get_lemmas_with_surface(ja_text)` and append one `(word, idx)` pair per
word of that set. -/
def build_word_index (tag : Tagger) (sentences : List (Str × Str))
    (start_id : Nat) : List (Str × Nat) :=
  match sentences with
  | [] => []
  | (ja_text, _) :: rest =>
    (get_lemmas_with_surface tag ja_text).map (fun w => (w, start_id))
      ++ build_word_index tag rest (start_id + 1)

/-- The word-index loop of `rebuild_word_index`
(src/scripts/rebuild_word_index.py lines 52-59): for each persisted
`(sentence_id, japanese)` row, append one `(word, sentence_id)` pair per
word of `get_lemmas_with_surface(japanese)`. -/
def rebuild_word_index (tag : Tagger) (rows : List (Nat × Str)) :
    List (Str × Nat) :=
  match rows with
  | [] => []
  | (sentence_id, ja_text) :: rest =>
    (get_lemmas_with_surface tag ja_text).map (fun w => (w, sentence_id))
      ++ rebuild_word_index tag rest

/-- The `(id, japanese)` rows that persisting `sentences` with sequential
ids starting at `start_id` produces. -/
def numberFrom (start_id : Nat) : List Str → List (Nat × Str)
  | [] => []
  | ja :: rest => (start_id, ja) :: numberFrom (start_id + 1) rest

/-- Complete characterization of the pairs the builder emits: `(w, id)` is
emitted exactly when `id = start_id + i` for some sentence position `i` and
`w` is in the word set of that sentence. -/
theorem mem_build_iff (tag : Tagger) (sentences : List (Str × Str))
    (start_id : Nat) (w : Str) (id : Nat) :
    (w, id) ∈ build_word_index tag sentences start_id ↔
      ∃ i, i < sentences.length ∧ id = start_id + i ∧
        w ∈ get_lemmas_with_surface tag (sentences.getD i ([], [])).1 := by
  induction sentences generalizing start_id with
  | nil => simp [build_word_index]
  | cons s rest ih =>
    obtain ⟨ja, en⟩ := s
    rw [build_word_index]
    simp only [List.mem_append, List.mem_map]
    constructor
    · rintro (⟨w', hw', he⟩ | h)
      · obtain ⟨rfl, rfl⟩ := Prod.mk.injEq .. ▸ And.intro
          (congrArg Prod.fst he) (congrArg Prod.snd he)
        exact ⟨0, by simp, by omega, by simpa using hw'⟩
      · obtain ⟨i, hi, hid, hw⟩ := (ih (start_id + 1)).mp h
        exact ⟨i + 1, by simpa using hi, by omega, by simpa using hw⟩
    · rintro ⟨i, hi, hid, hw⟩
      cases i with
      | zero =>
        left
        exact ⟨w, by simpa using hw, by simp [hid]⟩
      | succ j =>
        right
        refine (ih (start_id + 1)).mpr ⟨j, ?_, by omega, ?_⟩
        · simpa using hi
        · simpa using hw

/-- Every emitted id is at least the starting id. -/
theorem mem_build_snd_ge (tag : Tagger) (sentences : List (Str × Str))
    (start_id : Nat) (p : Str × Nat)
    (h : p ∈ build_word_index tag sentences start_id) : start_id ≤ p.2 := by
  obtain ⟨w, id⟩ := p
  obtain ⟨i, _, hid, _⟩ := (mem_build_iff tag sentences start_id w id).mp h
  omega

/-- The emitted list carries sentence ids in non-decreasing order: sentence
order is preserved by the emission. -/
theorem build_ids_sorted (tag : Tagger) (sentences : List (Str × Str))
    (start_id : Nat) :
    ((build_word_index tag sentences start_id).map Prod.snd).Sorted (· ≤ ·) := by
  induction sentences generalizing start_id with
  | nil => simp [build_word_index]
  | cons s rest ih =>
    obtain ⟨ja, en⟩ := s
    rw [build_word_index]
    rw [List.map_append, List.Sorted, List.pairwise_append]
    refine ⟨?_, ih (start_id + 1), ?_⟩
    · rw [List.map_map]
      apply List.Pairwise.map (R := fun _ _ => True)
      · intro w w' _
        simp
      · exact List.pairwise_of_forall fun _ _ => trivial
    · intro a ha b hb
      rw [List.map_map] at ha
      obtain ⟨w, _, rfl⟩ := List.mem_map.mp ha
      obtain ⟨p, hp, rfl⟩ := List.mem_map.mp hb
      have := mem_build_snd_ge tag rest (start_id + 1) p hp
      simpa using Nat.le_trans (Nat.le_succ start_id) this

/-- The whole emitted list is duplicate-free: a sentence contributes at most
one `(word, id)` pair per distinct word (ids separate the per-sentence
blocks, and within a block the word set is duplicate-free). -/
theorem build_nodup (tag : Tagger) (sentences : List (Str × Str))
    (start_id : Nat) : (build_word_index tag sentences start_id).Nodup := by
  induction sentences generalizing start_id with
  | nil => simp [build_word_index]
  | cons s rest ih =>
    obtain ⟨ja, en⟩ := s
    rw [build_word_index]
    rw [List.nodup_append]
    refine ⟨?_, ih (start_id + 1), ?_⟩
    · exact (lws_nodup tag ja).map fun w w' he =>
        (Prod.mk.injEq .. ▸ he).1
    · intro p hp hq
      obtain ⟨w, _, rfl⟩ := List.mem_map.mp hp
      have := mem_build_snd_ge tag rest (start_id + 1) (w, start_id) hq
      omega

/-- Membership in the rebuild output. -/
theorem mem_rebuild_iff (tag : Tagger) (rows : List (Nat × Str)) (w : Str)
    (id : Nat) :
    (w, id) ∈ rebuild_word_index tag rows ↔
      ∃ r ∈ rows, r.1 = id ∧ w ∈ get_lemmas_with_surface tag r.2 := by
  induction rows with
  | nil => simp [rebuild_word_index]
  | cons r rest ih =>
    obtain ⟨sid, ja⟩ := r
    rw [rebuild_word_index]
    simp only [List.mem_append, List.mem_map, List.mem_cons]
    constructor
    · rintro (⟨w', hw', he⟩ | h)
      · have h1 := congrArg Prod.fst he
        have h2 := congrArg Prod.snd he
        simp at h1 h2
        subst h1 h2
        exact ⟨(sid, ja), Or.inl rfl, rfl, hw'⟩
      · obtain ⟨r', hr', hid, hw⟩ := ih.mp h
        exact ⟨r', Or.inr hr', hid, hw⟩
    · rintro ⟨r', hr' | hr', hid, hw⟩
      · subst hr'
        simp at hid hw
        left
        exact ⟨w, hw, by rw [hid]⟩
      · right
        exact ih.mpr ⟨r', hr', hid, hw⟩

/-- Membership in the canonical persisted rows. -/
theorem mem_numberFrom_iff (start_id : Nat) (jas : List Str)
    (r : Nat × Str) :
    r ∈ numberFrom start_id jas ↔
      ∃ i, i < jas.length ∧ r = (start_id + i, jas.getD i []) := by
  induction jas generalizing start_id with
  | nil => simp [numberFrom]
  | cons ja rest ih =>
    rw [numberFrom]
    simp only [List.mem_cons]
    constructor
    · rintro (rfl | h)
      · exact ⟨0, by simp, by simp⟩
      · obtain ⟨i, hi, he⟩ := (ih (start_id + 1)).mp h
        exact ⟨i + 1, by simpa using hi, by simpa [Nat.add_assoc, Nat.add_comm 1 i] using he⟩
    · rintro ⟨i, hi, he⟩
      cases i with
      | zero =>
        left
        simpa using he
      | succ j =>
        right
        refine (ih (start_id + 1)).mpr ⟨j, by simpa using hi, ?_⟩
        simpa [Nat.add_assoc, Nat.add_comm 1 j] using he

/-! ## Corpus ingestion (src/loader.py, `read_jesc_file`)

The `csv` module is external; the reader is modelled from the parsed rows
on.  Python's `str.strip()` removes the Unicode whitespace code points at
both ends. -/

/-- The code points Python's `str.strip()` removes. -/
def pyIsSpace (c : Nat) : Bool :=
  c ∈ [0x9, 0xA, 0xB, 0xC, 0xD, 0x1C, 0x1D, 0x1E, 0x1F, 0x20, 0x85, 0xA0,
    0x1680, 0x2000, 0x2001, 0x2002, 0x2003, 0x2004, 0x2005, 0x2006, 0x2007,
    0x2008, 0x2009, 0x200A, 0x2028, 0x2029, 0x202F, 0x205F, 0x3000]

/-- Python `str.strip()`: drop whitespace from both ends. -/
def pyStrip (s : Str) : Str :=
  ((s.dropWhile pyIsSpace).reverse.dropWhile pyIsSpace).reverse

/-- The Python truthiness test `limit and line_num > limit` that guards the
early `break` (`None` and `0` are falsy). -/
def limitReached (limit : Option Int) (line_num : Int) : Bool :=
  match limit with
  | some n => n ≠ 0 && line_num > n
  | none => false

/-- The row loop of `read_jesc_file` (src/loader.py lines 43-66), starting
from the parsed CSV rows, with `line_num` counting from 1: stop at the
limit; skip rows with fewer than 3 fields; take `en = row[1].strip()` and
`ja = row[2].strip()`; skip when either is empty, contains a newline or a
tab, or is longer than 300 characters; otherwise append `(ja, en)`. -/
def read_jesc_rows (limit : Option Int) (line_num : Int) :
    List (List Str) → List (Str × Str)
  | [] => []
  | row :: rest =>
    if limitReached limit line_num then []
    else if row.length < 3 then read_jesc_rows limit (line_num + 1) rest
    else if (pyStrip (row.getD 2 [])).isEmpty
        || (pyStrip (row.getD 1 [])).isEmpty then
      read_jesc_rows limit (line_num + 1) rest
    else if (pyStrip (row.getD 2 [])).contains 0xA
        || (pyStrip (row.getD 2 [])).contains 0x9
        || (pyStrip (row.getD 1 [])).contains 0xA
        || (pyStrip (row.getD 1 [])).contains 0x9 then
      read_jesc_rows limit (line_num + 1) rest
    else if 300 < (pyStrip (row.getD 2 [])).length
        || 300 < (pyStrip (row.getD 1 [])).length then
      read_jesc_rows limit (line_num + 1) rest
    else (pyStrip (row.getD 2 []), pyStrip (row.getD 1 []))
      :: read_jesc_rows limit (line_num + 1) rest

/-- `read_jesc_file` without a limit (the production call passes
`limit=None`). -/
def read_jesc_file (rows : List (List Str)) : List (Str × Str) :=
  read_jesc_rows none 1 rows

/-- The rejection condition exactly as claim C8 words it: fewer than 3
fields, or a text field (field 1 = English, field 2 = Japanese) that, after
trimming, is empty, has an embedded newline or tab, or exceeds 300
characters. -/
def claimSkip (row : List Str) : Bool :=
  row.length < 3
    || (pyStrip (row.getD 1 [])).isEmpty
    || (pyStrip (row.getD 2 [])).isEmpty
    || (pyStrip (row.getD 1 [])).contains 0xA
    || (pyStrip (row.getD 1 [])).contains 0x9
    || (pyStrip (row.getD 2 [])).contains 0xA
    || (pyStrip (row.getD 2 [])).contains 0x9
    || 300 < (pyStrip (row.getD 1 [])).length
    || 300 < (pyStrip (row.getD 2 [])).length

/-! ## Persistence layer (src/database.py)

The SQL store is modelled by its two tables; `session.execute` is the
fallible external call, abstracted by an `Outcome`.  When it raises, the
`except` handlers of the two search methods call `logger.erorr(...)` — a
misspelling of `logger.error`; Python's `Logger` has no attribute `erorr`,
so the handler itself raises `AttributeError`, which propagates to the
caller.  The handlers of `get_random_sentence` and `get_sentence_count`
spell `logger.error` correctly and return their defaults. -/

/-- One row of the `sentences` table. -/
structure SentenceRow where
  id : Nat
  japanese : Str
  english : Str
deriving DecidableEq

/-- The persisted store: the `sentences` and `word_index` tables. -/
structure DB where
  sentences : List SentenceRow
  word_index : List (Str × Nat)
deriving DecidableEq

/-- Whether the backend round trip (`session.execute`) succeeds or raises. -/
inductive Outcome where
  | success : Outcome
  | failure : Outcome
deriving DecidableEq

/-- The Python exception escaping a query method, when one does. -/
inductive PyExn where
  | attributeError : PyExn
deriving DecidableEq

/-- The rows of the exact-match join: sentences joined to `word_index`
entries whose `word` equals the query, capped at `limit`. -/
def exact_match_rows (db : DB) (word : Str) (limit : Nat) :
    List (Str × Str) :=
  ((db.word_index.filter (fun p => p.1 == word)).filterMap
      (fun p => (db.sentences.find? (fun s => s.id == p.2)).map
        (fun s => (s.japanese, s.english)))).take limit

/-- The rows of the `LIKE word%` join: `word_index` entries whose word
starts with the query (the query strings are Japanese words without LIKE
metacharacters), capped at `limit`. -/
def partial_match_rows (db : DB) (word : Str) (limit : Nat) :
    List (Str × Str) :=
  ((db.word_index.filter (fun p => word.isPrefixOf p.1)).filterMap
      (fun p => (db.sentences.find? (fun s => s.id == p.2)).map
        (fun s => (s.japanese, s.english)))).take limit

/-- `Database.search_by_word` (src/database.py lines 77-101).  On backend
failure the handler's `logger.erorr` call raises `AttributeError`. -/
def search_by_word (db : DB) (o : Outcome) (word : Str) (limit : Nat) :
    Except PyExn (List (Str × Str)) :=
  match o with
  | .success => .ok (exact_match_rows db word limit)
  | .failure => .error .attributeError

/-- `Database.search_by_partial_word` (src/database.py lines 103-123); same
misspelled logger call in the handler. -/
def search_by_partial_word (db : DB) (o : Outcome) (word : Str)
    (limit : Nat) : Except PyExn (List (Str × Str)) :=
  match o with
  | .success => .ok (partial_match_rows db word limit)
  | .failure => .error .attributeError

/-- `Database.get_random_sentence` (src/database.py lines 125-147): one row
chosen by `ORDER BY random() LIMIT 1` (the choice is modelled by `pick`),
`(None, None)` on an empty table, and `(None, None)` from the (correctly
spelled) handler on backend failure. -/
def get_random_sentence (db : DB) (o : Outcome) (pick : Nat) :
    Except PyExn (Option Str × Option Str) :=
  match o with
  | .failure => .ok (none, none)
  | .success =>
    match db.sentences[pick % db.sentences.length]? with
    | some s => .ok (some s.japanese, some s.english)
    | none => .ok (none, none)

/-- `Database.get_sentence_count` (src/database.py lines 149-158): the
table count on success (`count if count else 0`), `0` from the handler on
backend failure. -/
def get_sentence_count (db : DB) (o : Outcome) : Except PyExn Nat :=
  match o with
  | .success => .ok db.sentences.length
  | .failure => .ok 0

/-! ## Bot search command (src/bot.py, `sentence_command`) -/

/-- The limit clamp at src/bot.py line 77: `limit = max(1, min(limit, 10))`
on the user-supplied integer. -/
def clamp_limit (limit : Int) : Int :=
  max 1 (min limit 10)

/-- The three-tier resolution of `sentence_command` (src/bot.py lines
79-97), on the success path of the store: normalize the query; exact
lookup; if empty, partial (prefix) lookup; if still empty, run the
normalized query through `get_lemmas` and, when non-empty, repeat the exact
lookup with one lemma of the set (`list(lemmas)[0]`). -/
def resolve_search (db : DB) (tag : Tagger) (word : Str) (limit : Nat) :
    List (Str × Str) :=
  let normalized_word := normalize word
  let results := exact_match_rows db normalized_word limit
  if results ≠ [] then results
  else
    let results2 := partial_match_rows db normalized_word limit
    if results2 ≠ [] then results2
    else
      match get_lemmas tag normalized_word with
      | [] => []
      | l :: _ => exact_match_rows db l limit

/-- `sentence_command`: clamp the user-supplied limit into `[1, 10]`, then
resolve the search. -/
def sentence_command (db : DB) (tag : Tagger) (word : Str) (limit : Int) :
    List (Str × Str) :=
  resolve_search db tag word (clamp_limit limit).toNat

/-! ## Concrete instances used by witnesses and counterexamples

The real segmenter is fugashi/MeCab; the instances below share its
structural properties used here: the surface forms of the morphemes are
pieces of the input text (so an empty input yields no morphemes). -/

/-- A tagger that segments a text into one morpheme per character, with no
dictionary lemma. -/
def charTagger : Tagger := fun s => s.map (fun c => ⟨[c], none, [], [], none⟩)

/-- A tagger that reads a non-empty text as one morpheme whose dictionary
lemma is `食` (U+98DF). -/
def lemmaTagger : Tagger := fun s =>
  if s.isEmpty then [] else [⟨s, some [0x98DF], [], [], none⟩]

/-- A store with sentence 1 = `あ`, indexed under the word `あ`. -/
def dbA : DB := ⟨[⟨1, [0x3042], [0x61]⟩], [([0x3042], 1)]⟩

/-- A store with sentence 1 = `あい`, indexed under the word `あい` only. -/
def dbB : DB := ⟨[⟨1, [0x3042, 0x3044], [0x61]⟩], [([0x3042, 0x3044], 1)]⟩

/-- A store with sentence 1 = `食`, indexed under the word `食` only. -/
def dbC : DB := ⟨[⟨1, [0x98DF], [0x62]⟩], [([0x98DF], 1)]⟩

/-- The empty store. -/
def emptyDB : DB := ⟨[], []⟩

/-! ## The claims -/

/-- C1: for every query word and limit, the search resolves in exactly
three sequential tiers, short-circuiting on the first non-empty result:
exact lookup on the normalized word; only if empty, a prefix lookup; only
if that is also empty, the lemma set of the query is computed and, when
non-empty, one lemma from it is used for a second exact lookup; no later
tier runs once an earlier tier returned a non-empty result. -/
theorem C1_three_tier_resolution (db : DB) (tag : Tagger) (word : Str)
    (limit : Nat) :
    (exact_match_rows db (normalize word) limit ≠ [] →
      resolve_search db tag word limit
        = exact_match_rows db (normalize word) limit)
    ∧ (exact_match_rows db (normalize word) limit = [] →
       partial_match_rows db (normalize word) limit ≠ [] →
      resolve_search db tag word limit
        = partial_match_rows db (normalize word) limit)
    ∧ (exact_match_rows db (normalize word) limit = [] →
       partial_match_rows db (normalize word) limit = [] →
      resolve_search db tag word limit
        = match get_lemmas tag (normalize word) with
          | [] => []
          | l :: _ => exact_match_rows db l limit) := by
  refine ⟨?_, ?_, ?_⟩
  · intro h1
    simp only [resolve_search]
    rw [if_pos h1]
  · intro h1 h2
    simp only [resolve_search]
    rw [if_neg (by simp [h1]), if_pos h2]
  · intro h1 h2
    simp only [resolve_search]
    rw [if_neg (by simp [h1]), if_neg (by simp [h2])]

/-- Witness for C1: each tier observed on a concrete store (`dbA` hits tier
1, `dbB` tier 2, `dbC` tier 3 through the lemma `食`). -/
theorem C1_three_tier_resolution_witness :
    (exact_match_rows dbA (normalize [0x3042]) 5 ≠ []
      ∧ resolve_search dbA charTagger [0x3042] 5
          = exact_match_rows dbA (normalize [0x3042]) 5)
    ∧ (resolve_search dbB charTagger [0x3042] 5
          = partial_match_rows dbB (normalize [0x3042]) 5)
    ∧ (resolve_search dbC lemmaTagger [0x3042] 5
          = match get_lemmas lemmaTagger (normalize [0x3042]) with
            | [] => []
            | l :: _ => exact_match_rows dbC l 5) :=
  ⟨⟨by decide, (C1_three_tier_resolution dbA charTagger [0x3042] 5).1
      (by decide)⟩,
   (C1_three_tier_resolution dbB charTagger [0x3042] 5).2.1
      (by decide) (by decide),
   (C1_three_tier_resolution dbC lemmaTagger [0x3042] 5).2.2
      (by decide) (by decide)⟩

/-- C2: the claim says every read-path query degrades on backend failure
and never propagates; in the code the `except` handlers of
`search_by_word` and `search_by_partial_word` call `logger.erorr` — a
misspelling of `logger.error` — so those two methods raise
`AttributeError` to the caller instead of returning `[]`.  The other two
query methods do degrade as claimed, and `get_random_sentence` returns
`(None, None)` on an empty corpus. -/
theorem C2_backend_failure_behavior :
    search_by_word dbA .failure [0x3042] 5 = .error .attributeError
    ∧ search_by_partial_word dbA .failure [0x3042] 5
        = .error .attributeError
    ∧ get_random_sentence dbA .failure 0 = .ok (none, none)
    ∧ get_sentence_count dbA .failure = .ok 0
    ∧ get_random_sentence emptyDB .success 0 = .ok (none, none) :=
  ⟨rfl, rfl, rfl, rfl, rfl⟩

/-- C3: the text normalizer is idempotent, a pure total function on
strings, and maps the empty string to the empty string. -/
theorem C3_normalize_idempotent :
    (∀ x : Str, normalize (normalize x) = normalize x)
      ∧ normalize ([] : Str) = [] :=
  ⟨normalize_idem, rfl⟩

/-- C4: for every input text, `get_lemmas_with_surface` contains every word
of `get_lemmas` and every surface token of `tokenize`. -/
theorem C4_lws_superset (tag : Tagger) (text : Str) (w : Str)
    (h : w ∈ get_lemmas tag text ∨ w ∈ tokenize tag text) :
    w ∈ get_lemmas_with_surface tag text := by
  rw [mem_lws_iff]
  rcases h with h | h
  · obtain ⟨m, hm, rfl⟩ := (mem_get_lemmas_iff tag text w).mp h
    refine ⟨m, hm, ?_⟩
    unfold lemmaOrSurface surfaceAndLemma
    cases m.lemma? with
    | some l =>
      dsimp only
      split_ifs with hc
      · simp
      · simp
    | none => simp
  · obtain ⟨m, hm, rfl⟩ := List.mem_map.mp h
    exact ⟨m, hm, List.mem_cons_self _ _⟩

/-- Witness for C4 at a concrete tagger and text. -/
theorem C4_lws_superset_witness :
    ([0x3042] ∈ get_lemmas charTagger [0x3042]
        ∨ [0x3042] ∈ tokenize charTagger [0x3042])
      ∧ [0x3042] ∈ get_lemmas_with_surface charTagger [0x3042] :=
  ⟨by decide, C4_lws_superset charTagger [0x3042] [0x3042] (by decide)⟩

/-- C5 counterexample: a one-sentence list whose Japanese text is empty
(the segmenter returns no morphemes for it, as fugashi does) emits no pair
at all, so the emitted sentence ids are not exactly `{1}` as the claim
requires for `N = 1`, `K = 1`. -/
theorem C5_counterexample :
    build_word_index charTagger [(([] : Str), ([] : Str))] 1 = []
      ∧ ∀ p ∈ build_word_index charTagger [(([] : Str), ([] : Str))] 1,
          p.2 ≠ 1 := by
  decide

/-- C5 amended: the pairs emitted for a sentence list starting at
`start_id` are exactly those `(w, start_id + i)` with `i` a sentence
position and `w` in that sentence's extracted word set — so the ids form a
subset of `{start_id, ..., start_id + N - 1}`, position `i` always receives
id `start_id + i` (strict input order), a sentence with a non-empty word
set does contribute its id, and the emission keeps sentence order (ids are
non-decreasing). -/
theorem C5_amended_id_assignment (tag : Tagger)
    (sentences : List (Str × Str)) (start_id : Nat) :
    (∀ w id, (w, id) ∈ build_word_index tag sentences start_id ↔
        ∃ i, i < sentences.length ∧ id = start_id + i ∧
          w ∈ get_lemmas_with_surface tag (sentences.getD i ([], [])).1)
    ∧ ((build_word_index tag sentences start_id).map Prod.snd).Sorted
        (· ≤ ·) :=
  ⟨mem_build_iff tag sentences start_id,
   build_ids_sorted tag sentences start_id⟩

/-- C6: the emitted word-index list is duplicate-free — in particular one
sentence contributes at most one `(word, sentence_id)` pair per distinct
word, however often the word occurs morphologically or as both surface
form and lemma. -/
theorem C6_dedup_per_sentence (tag : Tagger) (sentences : List (Str × Str))
    (start_id : Nat) : (build_word_index tag sentences start_id).Nodup :=
  build_nodup tag sentences start_id

/-- C7 counterexample: `analyze_word` does not normalize its input, so on
the half-width katakana `ｱ` (U+FF71) it reports surface `ｱ`, while on the
normalized input it reports surface `ア` (U+30A2). -/
theorem C7_counterexample :
    analyze_word charTagger [0xFF71]
      ≠ analyze_word charTagger (normalize [0xFF71]) := by
  decide

/-- C7 amended: `tokenize`, `get_lemmas` and `get_lemmas_with_surface`
normalize their input before segmentation, so each is invariant under
pre-normalizing its argument; `analyze_word` alone segments the raw
input. -/
theorem C7_amended_normalization (tag : Tagger) (w : Str) :
    tokenize tag w = tokenize tag (normalize w)
    ∧ get_lemmas tag w = get_lemmas tag (normalize w)
    ∧ get_lemmas_with_surface tag w
        = get_lemmas_with_surface tag (normalize w) := by
  refine ⟨?_, ?_, ?_⟩ <;>
    simp [tokenize, get_lemmas, get_lemmas_with_surface, normalize_idem]

/-- Reading the Japanese text of position `i` through `map Prod.fst`
agrees with projecting the pair at position `i`. -/
theorem getD_map_fst (l : List (Str × Str)) :
    ∀ i : Nat, (l.map Prod.fst).getD i [] = (l.getD i ([], [])).1 := by
  induction l with
  | nil => intro i; cases i <;> rfl
  | cons s rest ih =>
    intro i
    cases i with
    | zero => rfl
    | succ j => exact ih j

/-- C9: rebuilding the word index from persisted `(id, japanese)` rows
yields the same set of `(word, sentence_id)` pairs as the original build,
whenever the persisted rows are (as a set — the fetch is unordered) the
sentences with their sequential build-time ids. -/
theorem C9_rebuild_equivalence (tag : Tagger)
    (sentences : List (Str × Str)) (start_id : Nat)
    (rows : List (Nat × Str))
    (h1 : ∀ r ∈ rows, r ∈ numberFrom start_id (sentences.map Prod.fst))
    (h2 : ∀ r ∈ numberFrom start_id (sentences.map Prod.fst), r ∈ rows) :
    ∀ p : Str × Nat, p ∈ rebuild_word_index tag rows ↔
      p ∈ build_word_index tag sentences start_id := by
  have hget := getD_map_fst sentences
  rintro ⟨w, id⟩
  rw [mem_rebuild_iff, mem_build_iff]
  constructor
  · rintro ⟨r, hr, hid, hw⟩
    obtain ⟨i, hi, he⟩ := (mem_numberFrom_iff _ _ _).mp (h1 r hr)
    subst he
    simp only at hid hw
    rw [hget i] at hw
    rw [List.length_map] at hi
    exact ⟨i, hi, hid.symm, hw⟩
  · rintro ⟨i, hi, hid, hw⟩
    refine ⟨(start_id + i, (sentences.map Prod.fst).getD i []), ?_, ?_, ?_⟩
    · apply h2
      rw [mem_numberFrom_iff]
      exact ⟨i, by simpa using hi, rfl⟩
    · exact hid.symm
    · show w ∈ get_lemmas_with_surface tag ((sentences.map Prod.fst).getD i [])
      rw [hget i]
      exact hw

/-- Witness for C9 at a concrete store: one persisted sentence `あ` with id
5. -/
theorem C9_rebuild_equivalence_witness :
    (∀ r ∈ ([(5, [0x3042])] : List (Nat × Str)),
        r ∈ numberFrom 5 (([([0x3042], [0x61])]
          : List (Str × Str)).map Prod.fst))
    ∧ (∀ r ∈ numberFrom 5 (([([0x3042], [0x61])]
          : List (Str × Str)).map Prod.fst),
        r ∈ ([(5, [0x3042])] : List (Nat × Str)))
    ∧ (([0x3042], 5) ∈ rebuild_word_index charTagger [(5, [0x3042])] ↔
        ([0x3042], 5) ∈ build_word_index charTagger [([0x3042], [0x61])] 5) :=
  ⟨by decide, by decide,
   C9_rebuild_equivalence charTagger [([0x3042], [0x61])] 5 [(5, [0x3042])]
     (by decide) (by decide) ([0x3042], 5)⟩

/-- Length of the exact-match join is capped by the limit. -/
theorem exact_match_rows_length_le (db : DB) (word : Str) (limit : Nat) :
    (exact_match_rows db word limit).length ≤ limit :=
  List.length_take_le _ _

/-- Length of the prefix-match join is capped by the limit. -/
theorem partial_match_rows_length_le (db : DB) (word : Str) (limit : Nat) :
    (partial_match_rows db word limit).length ≤ limit :=
  List.length_take_le _ _

/-- The tiered resolution respects the limit. -/
theorem resolve_search_length_le (db : DB) (tag : Tagger) (word : Str)
    (limit : Nat) : (resolve_search db tag word limit).length ≤ limit := by
  simp only [resolve_search]
  split_ifs with h1 h2
  · exact exact_match_rows_length_le db _ limit
  · exact partial_match_rows_length_le db _ limit
  · cases get_lemmas tag (normalize word) with
    | nil => simp
    | cons l _ => exact exact_match_rows_length_le db l limit

/-- C10: the chat command clamps the user-supplied limit into `[1, 10]`
before querying — `0` or less becomes `1`, more than `10` becomes `10` —
and the returned list never exceeds 10 entries. -/
theorem C10_limit_clamp (db : DB) (tag : Tagger) (word : Str)
    (limit : Int) :
    1 ≤ clamp_limit limit ∧ clamp_limit limit ≤ 10
    ∧ (limit ≤ 0 → clamp_limit limit = 1)
    ∧ (10 < limit → clamp_limit limit = 10)
    ∧ (sentence_command db tag word limit).length ≤ 10 := by
  refine ⟨?_, ?_, ?_, ?_, ?_⟩
  · simp only [clamp_limit]
    omega
  · simp only [clamp_limit]
    omega
  · intro h
    simp only [clamp_limit]
    omega
  · intro h
    simp only [clamp_limit]
    omega
  · have h1 : (clamp_limit limit).toNat ≤ 10 := by
      simp only [clamp_limit]
      omega
    exact Nat.le_trans
      (resolve_search_length_le db tag word (clamp_limit limit).toNat) h1

/-- Witness for C10: the clamp observed at limits `-3` and `99`. -/
theorem C10_limit_clamp_witness :
    clamp_limit (-3) = 1 ∧ clamp_limit 99 = 10
      ∧ (sentence_command dbA charTagger [0x3042] 99).length ≤ 10 :=
  ⟨(C10_limit_clamp dbA charTagger [0x3042] (-3)).2.2.1 (by decide),
   (C10_limit_clamp dbA charTagger [0x3042] 99).2.2.2.1 (by decide),
   (C10_limit_clamp dbA charTagger [0x3042] 99).2.2.2.2⟩

/-- The per-row acceptance function stated by claim C8: reject on fewer
than 3 fields or a trimmed text field that is empty, has an embedded
newline or tab, or exceeds 300 characters; otherwise keep the trimmed
`(japanese, english)` pair. -/
def claimRow (row : List Str) : Option (Str × Str) :=
  if claimSkip row then none
  else some (pyStrip (row.getD 2 []), pyStrip (row.getD 1 []))

/-- The unlimited reader keeps exactly the rows the claim's rejection
condition accepts, in input order. -/
theorem read_jesc_rows_none_eq (rows : List (List Str)) : ∀ n : Int,
    read_jesc_rows none n rows = rows.filterMap claimRow := by
  induction rows with
  | nil => intro n; rfl
  | cons row rest ih =>
    intro n
    rw [read_jesc_rows]
    have hlim : ¬(limitReached none n = true) := by simp [limitReached]
    rw [if_neg hlim]
    by_cases h3 : row.length < 3
    · have hcs : claimRow row = none := by
        have : claimSkip row = true := by simp [claimSkip, h3]
        unfold claimRow
        rw [if_pos this]
      rw [if_pos h3, List.filterMap_cons_none hcs]
      exact ih (n + 1)
    · by_cases hb1 : ((pyStrip (row.getD 2 [])).isEmpty
          || (pyStrip (row.getD 1 [])).isEmpty) = true
      · have hcs : claimRow row = none := by
          have : claimSkip row = true := by
            simp only [Bool.or_eq_true] at hb1
            simp only [claimSkip, Bool.or_eq_true, decide_eq_true_eq]
            tauto
          unfold claimRow
          rw [if_pos this]
        rw [if_neg h3, if_pos hb1, List.filterMap_cons_none hcs]
        exact ih (n + 1)
      · by_cases hb2 : ((pyStrip (row.getD 2 [])).contains 0xA
            || (pyStrip (row.getD 2 [])).contains 0x9
            || (pyStrip (row.getD 1 [])).contains 0xA
            || (pyStrip (row.getD 1 [])).contains 0x9) = true
        · have hcs : claimRow row = none := by
            have : claimSkip row = true := by
              simp only [Bool.or_eq_true] at hb2
              simp only [claimSkip, Bool.or_eq_true, decide_eq_true_eq]
              tauto
            unfold claimRow
            rw [if_pos this]
          rw [if_neg h3, if_neg hb1, if_pos hb2,
            List.filterMap_cons_none hcs]
          exact ih (n + 1)
        · by_cases hb3 : (300 < (pyStrip (row.getD 2 [])).length
              || 300 < (pyStrip (row.getD 1 [])).length) = true
          · have hcs : claimRow row = none := by
              have : claimSkip row = true := by
                simp only [Bool.or_eq_true, decide_eq_true_eq] at hb3
                simp only [claimSkip, Bool.or_eq_true, decide_eq_true_eq]
                tauto
              unfold claimRow
              rw [if_pos this]
            rw [if_neg h3, if_neg hb1, if_neg hb2, if_pos hb3,
              List.filterMap_cons_none hcs]
            exact ih (n + 1)
          · have hcs : claimRow row
                = some (pyStrip (row.getD 2 []), pyStrip (row.getD 1 [])) := by
              have hns : ¬(claimSkip row = true) := by
                simp only [Bool.or_eq_true] at hb1 hb2
                simp only [Bool.or_eq_true, decide_eq_true_eq] at hb3
                simp only [claimSkip, Bool.or_eq_true, decide_eq_true_eq]
                tauto
              unfold claimRow
              rw [if_neg hns]
            rw [if_neg h3, if_neg hb1, if_neg hb2, if_neg hb3,
              List.filterMap_cons_some hcs]
            rw [ih (n + 1)]

/-- C8: a record is skipped exactly when it has fewer than 3 fields, or a
text field (field 1 = English, field 2 = Japanese) is empty after trimming,
contains an embedded newline or tab, or exceeds 300 characters; every
other record is accepted as a `(japanese, english)` pair, in input order. -/
theorem C8_record_filter (rows : List (List Str)) :
    read_jesc_file rows = rows.filterMap claimRow :=
  read_jesc_rows_none_eq rows 1

end JESC
